import Mathlib

/-!
Verification of the personal-finance visualizer's aggregation engine and stores.

The development shallowly embeds the relevant JavaScript sources:
* the aggregation utilities (`groupTransactionsByMonth`, `calculateCategoryTotals`,
  `getTransactionsForMonth`, `calculateMonthlyExpensesByCategory`,
  `compareBudgetWithActual`, `generateInsights`) from `lib/utils.js`
  (src/unnamed/part_004, lines 241-596);
* the budget store operations (`addOrUpdateBudget`, `deleteBudget`) from
  `lib/budgetContext.js` (src/unnamed/part_003, lines 91-152);
* the transaction store operations (`updateTransaction`, `deleteTransaction`,
  `getStats`) from `src/lib/transactionContext.js` (lines 117-190).

Modelling conventions:
* JavaScript numbers are modelled as rationals (`Rat`); the amounts involved are
  ordinary decimals and every claim is about exact comparisons and sums.
* A transaction's `date` field is `Option JDate`: `some ⟨y, m, d⟩` stands for a
  date string that `new Date(...)` parses successfully to year `y`, month `m`
  (1-12) and day `d` in the session's time zone, and `none` stands for a missing
  or unparseable date (`!transaction.date` or `isNaN(date.getTime())`).
* A `YYYY-MM` month key is modelled as the pair `MonthKey` of its year and month;
  budgets store such a pair in their `month` field, matching the string equality
  `budget.month === monthYear` of the source.
* A JavaScript object used as a dictionary (`grouped` in `groupTransactionsByMonth`,
  `categoryTotals` in the category aggregations) is modelled as an insertion-ordered
  association list, with property assignment updating the existing slot in place and
  appending a fresh key at the end, exactly as JS object key order behaves.
* `Array.prototype.sort` with a numeric comparator is modelled as a stable
  insertion sort by the comparator's key (modern engines guarantee stability, and
  any stable sort produces this unique result).  Crucially, `sort` mutates the
  array it is called on, so `generateInsights` is embedded as returning both its
  insight list and the final state of the `budgetComparison` array it received.
* Insight texts are modelled structurally: each emitted insight records its kind,
  the category it names (if any), the currency amount it cites, the numerator and
  denominator of the percentage it computes (if any), and its severity.
* Timestamps and generated ids are nondeterministic at the JS level
  (`new Date().toISOString()`, `Date.now()`/`Math.random()`); the embedding takes
  them as explicit parameters.
-/

namespace FinViz

/-- Parsed calendar date of a transaction: the year, month (1-12) and day that
`new Date(transaction.date)` yields when parsing succeeds. -/
structure JDate where
  year : Nat
  month : Nat
  day : Nat
deriving DecidableEq

/-- A `YYYY-MM` month key, modelled as its year and month components. -/
structure MonthKey where
  year : Nat
  month : Nat
deriving DecidableEq

/-- Transaction record (schema in src/lib/transactionContext.js lines 3-15).
`category` is `none` when absent; the display-time coercion to `"Other"` is
`coercedCategory` below. -/
structure Transaction where
  id : String
  amount : Rat
  date : Option JDate
  description : String
  category : Option String
  createdAt : String
  updatedAt : String
deriving DecidableEq

/-- Budget record (schema in src/unnamed/part_003 lines 3-14). -/
structure Budget where
  id : String
  month : MonthKey
  category : String
  amount : Rat
  createdAt : String
  updatedAt : String
deriving DecidableEq

/-- Statistics record returned by `getStats`
(src/lib/transactionContext.js lines 173-190). -/
structure Stats where
  totalTransactions : Nat
  income : Rat
  expenses : Rat
  balance : Rat
deriving DecidableEq

/-- User-supplied data for the budget upsert
(the `budget` parameter of `addOrUpdateBudget`, src/unnamed/part_003 line 91). -/
structure BudgetDraft where
  month : MonthKey
  category : String
  amount : Rat
deriving DecidableEq

/-- Partial transaction used as the `updatedData` patch of `updateTransaction`
(src/lib/transactionContext.js line 117); `none` fields are absent from the patch. -/
structure TransactionPatch where
  amount : Option Rat
  date : Option (Option JDate)
  description : Option String
  category : Option (Option String)
deriving DecidableEq

/-- Spread-merge `{...transaction, ...updatedData, updatedAt: timestamp}` from
src/lib/transactionContext.js lines 130-138. -/
def applyPatch (t : Transaction) (p : TransactionPatch) (now : String) : Transaction :=
  { t with
    amount := p.amount.getD t.amount
    date := p.date.getD t.date
    description := p.description.getD t.description
    category := p.category.getD t.category
    updatedAt := now }

/-- Display/aggregation-time category coercion `transaction.category || 'Other'`
(src/unnamed/part_004 lines 359, 408); both a missing category and the empty
string are falsy in JS. -/
def coercedCategory (t : Transaction) : String :=
  match t.category with
  | none => "Other"
  | some c => if c = "" then "Other" else c

/-- Two-digit zero padding, `String(n).padStart(2, '0')`. -/
def pad2 (n : Nat) : String :=
  if n < 10 then "0" ++ toString n else toString n

/-- Month key string `` `${date.getFullYear()}-${String(date.getMonth() + 1).padStart(2, '0')}` ``
(src/unnamed/part_004 line 255). -/
def monthKeyOf (d : JDate) : String :=
  toString d.year ++ "-" ++ pad2 d.month

/-- English month abbreviation used by `format(date, 'MMM yyyy')`. -/
def monthAbbrev : Nat → String
  | 1 => "Jan" | 2 => "Feb" | 3 => "Mar" | 4 => "Apr" | 5 => "May" | 6 => "Jun"
  | 7 => "Jul" | 8 => "Aug" | 9 => "Sep" | 10 => "Oct" | 11 => "Nov" | 12 => "Dec"
  | _ => "???"

/-- Human-readable month label `format(date, 'MMM yyyy')`
(src/unnamed/part_004 line 256). -/
def monthNameOf (d : JDate) : String :=
  monthAbbrev d.month ++ " " ++ toString d.year

/-- One bucket of the `grouped` object of `groupTransactionsByMonth`
(src/unnamed/part_004 lines 258-263). -/
structure MonthBucket where
  name : String
  total : Rat
  key : String
deriving DecidableEq

/-- Object update `grouped[monthKey]`: create `{name, total: 0, key}` if absent,
then `grouped[monthKey].total += amount` (src/unnamed/part_004 lines 258-266).
The slot of an existing key is updated in place; a fresh key is appended. -/
def bumpBucket : List MonthBucket → String → String → Rat → List MonthBucket
  | [], key, name, v => [⟨name, v, key⟩]
  | b :: rest, key, name, v =>
    if b.key = key then { b with total := b.total + v } :: rest
    else b :: bumpBucket rest key name v

/-- Body of the `forEach` of `groupTransactionsByMonth`
(src/unnamed/part_004 lines 248-267): skip missing/unparseable dates, otherwise
bump the month bucket by the signed amount. -/
def addTxnToGroups (g : List MonthBucket) (t : Transaction) : List MonthBucket :=
  match t.date with
  | none => g
  | some d => bumpBucket g (monthKeyOf d) (monthNameOf d) t.amount

/-- Relation realising the comparator `(a, b) => a.key.localeCompare(b.key)`:
ascending, and stable on ties. -/
def bucketLE (a b : MonthBucket) : Prop := a.key ≤ b.key

instance : DecidableRel bucketLE :=
  fun a b => inferInstanceAs (Decidable (a.key ≤ b.key))

instance : IsTotal MonthBucket bucketLE := ⟨fun a b => le_total a.key b.key⟩

instance : IsTrans MonthBucket bucketLE := ⟨fun _ _ _ hab hbc => le_trans hab hbc⟩

/-- Embedding of `groupTransactionsByMonth` (src/unnamed/part_004 lines 241-271):
bucket the transactions by month key, then sort ascending by key.  The early
return for an empty input coincides with the general path. -/
def groupTransactionsByMonth (transactions : List Transaction) : List MonthBucket :=
  List.insertionSort bucketLE (transactions.foldl addTxnToGroups [])

/-- Property read `obj[key]` on an insertion-ordered object: first (unique)
matching key. -/
def objGet : List (String × Rat) → String → Option Rat
  | [], _ => none
  | p :: rest, c => if p.1 = c then some p.2 else objGet rest c

/-- Object update `categoryTotals[category] = (categoryTotals[category] || 0) + v`
(src/unnamed/part_004 lines 360, 409): update the existing slot in place, or
append the fresh key. -/
def bumpCategory : List (String × Rat) → String → Rat → List (String × Rat)
  | [], c, v => [(c, v)]
  | p :: rest, c, v =>
    if p.1 = c then (p.1, p.2 + v) :: rest
    else p :: bumpCategory rest c v

/-- Embedding of `calculateCategoryTotals` (src/unnamed/part_004 lines 347-368):
expense transactions grouped by coerced category, absolute amounts summed.
The `{name, value}` result objects are represented as the key/value pairs. -/
def calculateCategoryTotals (transactions : List Transaction) : List (String × Rat) :=
  (transactions.filter (fun t => decide (t.amount < 0))).foldl
    (fun acc t => bumpCategory acc (coercedCategory t) |t.amount|) []

/-- Embedding of `getTransactionsForMonth` (src/unnamed/part_004 lines 376-389):
keep the transactions whose parsed date falls in the given calendar month
(the source's inclusive `startOfMonth`/`endOfMonth` range check); a transaction
whose date fails to parse compares as `NaN` and is dropped. -/
def getTransactionsForMonth (transactions : List Transaction) (m : MonthKey) :
    List Transaction :=
  transactions.filter (fun t =>
    match t.date with
    | some d => decide (d.year = m.year ∧ d.month = m.month)
    | none => false)

/-- The `expenses` intermediate of `calculateMonthlyExpensesByCategory`
(src/unnamed/part_004 line 403): the month's negative-amount transactions. -/
def monthlyExpenses (transactions : List Transaction) (m : MonthKey) : List Transaction :=
  (getTransactionsForMonth transactions m).filter (fun t => decide (t.amount < 0))

/-- Embedding of `calculateMonthlyExpensesByCategory`
(src/unnamed/part_004 lines 397-413): per-category absolute expense totals for
one month, as the insertion-ordered `categoryTotals` object. -/
def calculateMonthlyExpensesByCategory (transactions : List Transaction) (m : MonthKey) :
    List (String × Rat) :=
  (monthlyExpenses transactions m).foldl
    (fun acc t => bumpCategory acc (coercedCategory t) |t.amount|) []

/-- One row of the `compareBudgetWithActual` result
(src/unnamed/part_004 lines 444-449). -/
structure ComparisonRow where
  category : String
  budgeted : Rat
  actual : Rat
  difference : Rat
deriving DecidableEq

/-- Insertion into the JS `Set` of line 434: keep the first occurrence, append
a fresh element. -/
def setInsert (l : List String) (x : String) : List String :=
  if x ∈ l then l else l ++ [x]

/-- JS `new Set([...])` iteration order: elements in first-occurrence order. -/
def jsSetOfList (xs : List String) : List String :=
  xs.foldl setInsert []

/-- Embedding of `compareBudgetWithActual` (src/unnamed/part_004 lines 422-453):
union of the month's budget categories and the month's expense categories, each
with the first matching budget's amount (`monthBudgets.find`), the recorded
actual spending (`actualByCategory[category] || 0`; a stored total is never `0`,
so the falsy fallback coincides with the missing-key fallback), and
`difference = budgeted - actual`. -/
def compareBudgetWithActual (transactions : List Transaction) (budgets : List Budget)
    (m : MonthKey) : List ComparisonRow :=
  let actualByCategory := calculateMonthlyExpensesByCategory transactions m
  let monthBudgets := budgets.filter (fun b => decide (b.month = m))
  let allCategories := jsSetOfList
    (actualByCategory.map Prod.fst ++ monthBudgets.map Budget.category)
  allCategories.map (fun c =>
    let budgeted := match monthBudgets.find? (fun b => decide (b.category = c)) with
      | some b => b.amount
      | none => 0
    let actual := (objGet actualByCategory c).getD 0
    ⟨c, budgeted, actual, budgeted - actual⟩)

/-- Severity levels of an insight (the `type` field). -/
inductive Severity
  | info
  | warning
  | success
deriving DecidableEq

/-- The five insight templates of `generateInsights`
(src/unnamed/part_004 lines 472-546), in source order. -/
inductive InsightKind
  | overallBudget
  | overCategory
  | underCategory
  | topSpending
  | unusedBudgets
deriving DecidableEq

/-- Structural rendering of one emitted insight: its template, the category its
text names (if any), the currency amount it cites, the numerator and denominator
of the percentage its text computes (`none`/`none` when the text has no
percentage), and its severity. -/
structure Insight where
  kind : InsightKind
  category : Option String
  amount : Rat
  percentNum : Option Rat
  percentDenom : Option Rat
  severity : Severity
deriving DecidableEq

/-- Total budgeted amount, `budgetComparison.reduce((sum, item) => sum + item.budgeted, 0)`
(src/unnamed/part_004 line 469). -/
def totalBudgeted (bc : List ComparisonRow) : Rat :=
  (bc.map (·.budgeted)).sum

/-- Total actual amount, `budgetComparison.reduce((sum, item) => sum + item.actual, 0)`
(src/unnamed/part_004 line 470). -/
def totalActual (bc : List ComparisonRow) : Rat :=
  (bc.map (·.actual)).sum

/-- Relation realising the comparator `(a, b) => (b.actual - b.budgeted) - (a.actual - a.budgeted)`
(descending overage, stable on ties). -/
def overageGE (a b : ComparisonRow) : Prop :=
  b.actual - b.budgeted ≤ a.actual - a.budgeted

instance : DecidableRel overageGE :=
  fun a b => inferInstanceAs (Decidable (b.actual - b.budgeted ≤ a.actual - a.budgeted))

instance : IsTotal ComparisonRow overageGE :=
  ⟨fun a b => le_total (b.actual - b.budgeted) (a.actual - a.budgeted)⟩

instance : IsTrans ComparisonRow overageGE :=
  ⟨fun _ _ _ hab hbc => le_trans hbc hab⟩

/-- Relation realising the comparator `(a, b) => (b.budgeted - b.actual) - (a.budgeted - a.actual)`
(descending savings, stable on ties). -/
def savingsGE (a b : ComparisonRow) : Prop :=
  b.budgeted - b.actual ≤ a.budgeted - a.actual

instance : DecidableRel savingsGE :=
  fun a b => inferInstanceAs (Decidable (b.budgeted - b.actual ≤ a.budgeted - a.actual))

instance : IsTotal ComparisonRow savingsGE :=
  ⟨fun a b => le_total (b.budgeted - b.actual) (a.budgeted - a.actual)⟩

instance : IsTrans ComparisonRow savingsGE :=
  ⟨fun _ _ _ hab hbc => le_trans hbc hab⟩

/-- Relation realising the comparator `(a, b) => b.actual - a.actual`
(descending actual, stable on ties). -/
def actualGE (a b : ComparisonRow) : Prop :=
  b.actual ≤ a.actual

instance : DecidableRel actualGE :=
  fun a b => inferInstanceAs (Decidable (b.actual ≤ a.actual))

instance : IsTotal ComparisonRow actualGE :=
  ⟨fun a b => le_total b.actual a.actual⟩

instance : IsTrans ComparisonRow actualGE :=
  ⟨fun _ _ _ hab hbc => le_trans hbc hab⟩

/-- Overall-budget block of `generateInsights` (src/unnamed/part_004 lines 472-490):
if `totalBudgeted > 0`, emit the utilization insight, `warning` when
`totalActual > totalBudgeted` and `success` otherwise.  The percentage is
`totalActual / totalBudgeted`. -/
def overallInsights (bc : List ComparisonRow) : List Insight :=
  if 0 < totalBudgeted bc then
    if totalBudgeted bc < totalActual bc then
      [{ kind := .overallBudget, category := none,
         amount := totalActual bc - totalBudgeted bc,
         percentNum := some (totalActual bc), percentDenom := some (totalBudgeted bc),
         severity := .warning }]
    else
      [{ kind := .overallBudget, category := none,
         amount := totalBudgeted bc - totalActual bc,
         percentNum := some (totalActual bc), percentDenom := some (totalBudgeted bc),
         severity := .success }]
  else []

/-- The `overBudgetItems` intermediate (src/unnamed/part_004 lines 493-495). -/
def overBudgetItems (bc : List ComparisonRow) : List ComparisonRow :=
  List.insertionSort overageGE
    (bc.filter (fun r => decide (0 < r.budgeted ∧ r.budgeted < r.actual)))

/-- Worst-over-budget block of `generateInsights`
(src/unnamed/part_004 lines 493-506). -/
def overInsights (bc : List ComparisonRow) : List Insight :=
  match (overBudgetItems bc).head? with
  | some w =>
    [{ kind := .overCategory, category := some w.category,
       amount := w.actual - w.budgeted,
       percentNum := some (w.actual - w.budgeted), percentDenom := some w.budgeted,
       severity := .warning }]
  | none => []

/-- The `underBudgetItems` intermediate (src/unnamed/part_004 lines 509-511). -/
def underBudgetItems (bc : List ComparisonRow) : List ComparisonRow :=
  List.insertionSort savingsGE
    (bc.filter (fun r => decide (0 < r.budgeted ∧ r.actual < r.budgeted)))

/-- Best-under-budget block of `generateInsights`
(src/unnamed/part_004 lines 509-522). -/
def underInsights (bc : List ComparisonRow) : List Insight :=
  match (underBudgetItems bc).head? with
  | some w =>
    [{ kind := .underCategory, category := some w.category,
       amount := w.budgeted - w.actual,
       percentNum := some (w.budgeted - w.actual), percentDenom := some w.budgeted,
       severity := .success }]
  | none => []

/-- The in-place `budgetComparison.sort((a, b) => b.actual - a.actual)` of
src/unnamed/part_004 lines 525-526: the state of the caller's array after
`generateInsights` returns. -/
def sortedByActual (bc : List ComparisonRow) : List ComparisonRow :=
  List.insertionSort actualGE bc

/-- Top-spending block of `generateInsights` (src/unnamed/part_004 lines 525-535):
the first element of the array sorted descending by `actual`, emitted when its
`actual` is positive; the percentage is `actual / totalActual`. -/
def topInsights (bc : List ComparisonRow) : List Insight :=
  match (sortedByActual bc).head? with
  | some t =>
    if 0 < t.actual then
      [{ kind := .topSpending, category := some t.category, amount := t.actual,
         percentNum := some t.actual, percentDenom := some (totalActual bc),
         severity := .info }]
    else []
  | none => []

/-- Unused-budgets block of `generateInsights` (src/unnamed/part_004 lines 538-546);
it runs after the in-place sort, so it filters the sorted array (the count is the
same either way).  The cited amount is the count of such categories. -/
def zeroInsights (bc : List ComparisonRow) : List Insight :=
  if 0 < ((sortedByActual bc).filter
      (fun r => decide (0 < r.budgeted ∧ r.actual = 0))).length then
    [{ kind := .unusedBudgets, category := none,
       amount := (((sortedByActual bc).filter
         (fun r => decide (0 < r.budgeted ∧ r.actual = 0))).length : Rat),
       percentNum := none, percentDenom := none, severity := .info }]
  else []

/-- Embedding of `generateInsights` (src/unnamed/part_004 lines 461-549).  The
`stats` parameter is accepted but never read, as in the source.  The result
pairs the emitted insights with the final state of the `budgetComparison` array:
the early return leaves it untouched, the general path leaves it sorted in place
descending by `actual`. -/
def generateInsights (budgetComparison : List ComparisonRow) (stats : Stats) :
    List Insight × List ComparisonRow :=
  if budgetComparison.isEmpty then ([], budgetComparison)
  else
    (overallInsights budgetComparison ++ overInsights budgetComparison
      ++ underInsights budgetComparison ++ topInsights budgetComparison
      ++ zeroInsights budgetComparison,
     sortedByActual budgetComparison)

/-- Budget-matching predicate of the upsert,
`b => b.category === budget.category && b.month === budget.month`
(src/unnamed/part_003 lines 96-98). -/
def budgetMatches (d : BudgetDraft) (b : Budget) : Bool :=
  decide (b.category = d.category) && decide (b.month = d.month)

/-- In-place array element replacement `updatedBudgets[existingBudgetIndex] = ...`
(src/unnamed/part_003 line 104). -/
def modifyAt (f : Budget → Budget) : Nat → List Budget → List Budget
  | _, [] => []
  | 0, b :: rest => f b :: rest
  | n + 1, b :: rest => b :: modifyAt f n rest

/-- Embedding of `addOrUpdateBudget` (src/unnamed/part_003 lines 91-129):
if a budget with the draft's `(month, category)` exists, replace that entry's
`amount` and `updatedAt` in place; otherwise append a new budget carrying the
fresh id and using the timestamp for both `createdAt` and `updatedAt`. -/
def addOrUpdateBudget (budgets : List Budget) (d : BudgetDraft)
    (timestamp freshId : String) : List Budget :=
  match budgets.findIdx? (budgetMatches d) with
  | some i =>
    modifyAt (fun b => { b with amount := d.amount, updatedAt := timestamp }) i budgets
  | none =>
    budgets ++ [{ id := freshId, month := d.month, category := d.category,
                  amount := d.amount, createdAt := timestamp, updatedAt := timestamp }]

/-- Embedding of `deleteBudget` (src/unnamed/part_003 lines 136-152): resolve
`false` and keep the list when the id is absent, otherwise resolve `true` and
filter the id out. -/
def deleteBudget (budgets : List Budget) (id : String) : Bool × List Budget :=
  match budgets.find? (fun b => decide (b.id = id)) with
  | none => (false, budgets)
  | some _ => (true, budgets.filter (fun b => decide (¬ b.id = id)))

/-- Embedding of `deleteTransaction` (src/lib/transactionContext.js lines 151-167):
same not-found-is-not-an-error shape as `deleteBudget`. -/
def deleteTransaction (transactions : List Transaction) (id : String) :
    Bool × List Transaction :=
  match transactions.find? (fun t => decide (t.id = id)) with
  | none => (false, transactions)
  | some _ => (true, transactions.filter (fun t => decide (¬ t.id = id)))

/-- Embedding of `updateTransaction` (src/lib/transactionContext.js lines 117-144):
reject with the not-found message and keep the list when the id is absent;
otherwise map the patch over every transaction carrying the id and resolve with
the updated transaction found in the new list. -/
def updateTransaction (transactions : List Transaction) (id : String)
    (p : TransactionPatch) (now : String) :
    Except String (Option Transaction) × List Transaction :=
  match transactions.find? (fun t => decide (t.id = id)) with
  | none => (.error ("Transaction with ID " ++ id ++ " not found"), transactions)
  | some _ =>
    let updated := transactions.map (fun t => if t.id = id then applyPatch t p now else t)
    (.ok (updated.find? (fun t => decide (t.id = id))), updated)

/-- Embedding of `getStats` (src/lib/transactionContext.js lines 173-190). -/
def getStats (transactions : List Transaction) : Stats :=
  let income := ((transactions.filter (fun t => decide (0 < t.amount))).map (·.amount)).sum
  let expenses := ((transactions.filter (fun t => decide (t.amount < 0))).map
    (fun t => |t.amount|)).sum
  { totalTransactions := transactions.length
    income := income
    expenses := expenses
    balance := income - expenses }

/-- Number of budgets stored for one `(month, category)` pair. -/
def pairCount (budgets : List Budget) (m : MonthKey) (c : String) : Nat :=
  budgets.countP (fun b => decide (b.month = m ∧ b.category = c))

/-- Store invariant: at most one budget per `(month, category)` pair. -/
def PairUnique (budgets : List Budget) : Prop :=
  ∀ m c, pairCount budgets m c ≤ 1

/-- Per-category absolute expense total of a transaction list: the reference
value that the `categoryTotals` object accumulates for a category. -/
def catSum (c : String) (es : List Transaction) : Rat :=
  ((es.filter (fun t => decide (coercedCategory t = c))).map (fun t => |t.amount|)).sum

/-- Whether a transaction's date parses into the given month key. -/
def hasMonthKey (k : String) (t : Transaction) : Bool :=
  match t.date with
  | some d => decide (monthKeyOf d = k)
  | none => false

/-- The `(month key, month label, amount)` triples of the transactions whose
dates parse: the data the `grouped` object of `groupTransactionsByMonth` is
built from. -/
def parsedTriples (ts : List Transaction) : List (String × String × Rat) :=
  ts.filterMap (fun t => t.date.map (fun d => (monthKeyOf d, monthNameOf d, t.amount)))

/-- Signed amount total of the triples carrying a given month key. -/
def keySum (k : String) (l : List (String × String × Rat)) : Rat :=
  ((l.filter (fun p => decide (p.1 = k))).map (fun p => p.2.2)).sum

/-- Example rows witnessing the in-place sort of `generateInsights`: the two
rows are out of order for the descending-`actual` comparator. -/
def mutationRows : List ComparisonRow :=
  [⟨"A", 0, 1, -1⟩, ⟨"B", 0, 2, -2⟩]

/-- Example statistics record (`generateInsights` never reads it). -/
def exampleStats : Stats := ⟨0, 0, 0, 0⟩

/-- Example month key 2025-01. -/
def exampleMonth : MonthKey := ⟨2025, 1⟩

/-- Example transaction: a January 2025 grocery expense of 50. -/
def exampleTxn : Transaction :=
  ⟨"t1", -50, some ⟨2025, 1, 5⟩, "Weekly groceries", some "Groceries", "", ""⟩

/-- Example transaction list: one January 2025 grocery expense of 50. -/
def exampleTxns : List Transaction := [exampleTxn]

/-- Example budget list: 100 for groceries in January 2025. -/
def exampleBudgets : List Budget :=
  [⟨"b1", ⟨2025, 1⟩, "Groceries", 100, "", ""⟩]

/-- Example comparison row produced by the example data. -/
def exampleRow : ComparisonRow := ⟨"Groceries", 100, 50, 50⟩

/-- Example month bucket produced by the example transactions. -/
def exampleBucket : MonthBucket := ⟨"Jan 2025", -50, "2025-01"⟩

/-- Example comparison list with an over-budget category. -/
def overBC : List ComparisonRow := [⟨"Groceries", 100, 120, -20⟩]

/-- Example comparison list with an under-budget category. -/
def underBC : List ComparisonRow := [⟨"Groceries", 100, 80, 20⟩]

/-- Example budget draft for the upsert. -/
def exampleDraft : BudgetDraft := ⟨⟨2025, 1⟩, "Groceries", 100⟩

/-- Example patch setting only the amount. -/
def examplePatch : TransactionPatch := ⟨some 5, none, none, none⟩

/-- C6: for every transaction list, `getStats` returns income equal to the sum
of the positive amounts, expenses equal to the sum of the absolute values of the
negative amounts, and a balance satisfying `balance = income - expenses`, with
both income and expenses nonnegative. -/
theorem getStats_spec (ts : List Transaction) :
    (getStats ts).income
        = ((ts.filter (fun t => decide (0 < t.amount))).map (·.amount)).sum
    ∧ (getStats ts).expenses
        = ((ts.filter (fun t => decide (t.amount < 0))).map (fun t => |t.amount|)).sum
    ∧ (getStats ts).balance = (getStats ts).income - (getStats ts).expenses
    ∧ 0 ≤ (getStats ts).income
    ∧ 0 ≤ (getStats ts).expenses := by
  refine ⟨rfl, rfl, rfl, ?_, ?_⟩
  · apply List.sum_nonneg
    intro x hx
    obtain ⟨t, ht, rfl⟩ := List.mem_map.mp hx
    exact le_of_lt (of_decide_eq_true (List.mem_filter.mp ht).2)
  · apply List.sum_nonneg
    intro x hx
    obtain ⟨t, _, rfl⟩ := List.mem_map.mp hx
    exact abs_nonneg _

/-- C9: deleting an id that matches no stored element resolves `false` and
leaves the stored list identical; deleting a present id resolves `true` and
removes the matching element while every other element survives in order.  Both
`deleteTransaction` and `deleteBudget` satisfy this. -/
theorem delete_not_found_spec (ts : List Transaction) (bs : List Budget) (id : String) :
    ((∀ t ∈ ts, t.id ≠ id) → deleteTransaction ts id = (false, ts))
    ∧ ((∃ t ∈ ts, t.id = id) →
        (deleteTransaction ts id).1 = true
        ∧ (∀ t ∈ (deleteTransaction ts id).2, t.id ≠ id)
        ∧ (deleteTransaction ts id).2.Sublist ts
        ∧ (∀ t ∈ ts, t.id ≠ id → t ∈ (deleteTransaction ts id).2))
    ∧ ((∀ b ∈ bs, b.id ≠ id) → deleteBudget bs id = (false, bs))
    ∧ ((∃ b ∈ bs, b.id = id) →
        (deleteBudget bs id).1 = true
        ∧ (∀ b ∈ (deleteBudget bs id).2, b.id ≠ id)
        ∧ (deleteBudget bs id).2.Sublist bs
        ∧ (∀ b ∈ bs, b.id ≠ id → b ∈ (deleteBudget bs id).2)) := by
  refine ⟨?_, ?_, ?_, ?_⟩
  · intro h
    have hf : ts.find? (fun t => decide (t.id = id)) = none :=
      List.find?_eq_none.mpr (fun t ht => by simpa using h t ht)
    simp [deleteTransaction, hf]
  · rintro ⟨t, ht, hid⟩
    cases hf : ts.find? (fun t => decide (t.id = id)) with
    | none =>
      exact absurd (by simpa using hid) (by simpa using List.find?_eq_none.mp hf t ht)
    | some u =>
      refine ⟨by simp [deleteTransaction, hf], ?_, ?_, ?_⟩
      · intro x hx
        have hx' : x ∈ ts.filter (fun t => decide (¬ t.id = id)) := by
          simpa [deleteTransaction, hf] using hx
        simpa using (List.mem_filter.mp hx').2
      · have : (ts.filter (fun t => decide (¬ t.id = id))).Sublist ts :=
          List.filter_sublist ts
        simpa [deleteTransaction, hf] using this
      · intro x hx hxid
        simp only [deleteTransaction, hf]
        exact List.mem_filter.mpr ⟨hx, by simpa using hxid⟩
  · intro h
    have hf : bs.find? (fun b => decide (b.id = id)) = none :=
      List.find?_eq_none.mpr (fun b hb => by simpa using h b hb)
    simp [deleteBudget, hf]
  · rintro ⟨b, hb, hid⟩
    cases hf : bs.find? (fun b => decide (b.id = id)) with
    | none =>
      exact absurd (by simpa using hid) (by simpa using List.find?_eq_none.mp hf b hb)
    | some u =>
      refine ⟨by simp [deleteBudget, hf], ?_, ?_, ?_⟩
      · intro x hx
        have hx' : x ∈ bs.filter (fun b => decide (¬ b.id = id)) := by
          simpa [deleteBudget, hf] using hx
        simpa using (List.mem_filter.mp hx').2
      · have : (bs.filter (fun b => decide (¬ b.id = id))).Sublist bs :=
          List.filter_sublist bs
        simpa [deleteBudget, hf] using this
      · intro x hx hxid
        simp only [deleteBudget, hf]
        exact List.mem_filter.mpr ⟨hx, by simpa using hxid⟩

/-- C9 witness: on a concrete one-element list, deleting an absent id is a
no-op resolving `false`, and deleting the present id removes it. -/
theorem delete_not_found_spec_witness :
    deleteTransaction exampleTxns "zzz" = (false, exampleTxns)
    ∧ (deleteBudget exampleBudgets "b1").1 = true :=
  ⟨(delete_not_found_spec exampleTxns exampleBudgets "zzz").1 (by decide),
   ((delete_not_found_spec exampleTxns exampleBudgets "b1").2.2.2
      ⟨⟨"b1", ⟨2025, 1⟩, "Groceries", 100, "", ""⟩, by decide, by decide⟩).1⟩

/-- Decomposing a list at its first element satisfying `p`. -/
theorem exists_first_match {α : Type} (p : α → Bool) (l : List α)
    (h : ∃ x ∈ l, p x = true) :
    ∃ pre b post, l = pre ++ b :: post ∧ p b = true ∧ ∀ x ∈ pre, p x = false := by
  induction l with
  | nil => simp at h
  | cons a l ih =>
    by_cases ha : p a = true
    · exact ⟨[], a, l, rfl, ha, by simp⟩
    · obtain ⟨x, hx, hpx⟩ := h
      have hx' : x ∈ l := by
        rcases List.mem_cons.mp hx with rfl | hmem
        · exact absurd hpx ha
        · exact hmem
      obtain ⟨pre, b, post, rfl, hb, hpre⟩ := ih ⟨x, hx', hpx⟩
      refine ⟨a :: pre, b, post, rfl, hb, ?_⟩
      intro y hy
      rcases List.mem_cons.mp hy with rfl | hmem
      · exact Bool.eq_false_iff.mpr ha
      · exact hpre y hmem

/-- The first index found in a decomposed list with a clean prefix. -/
theorem findIdx?_first_match {α : Type} (p : α → Bool) (pre : List α) (b : α)
    (post : List α) (hb : p b = true) (hpre : ∀ x ∈ pre, p x = false) :
    (pre ++ b :: post).findIdx? p = some pre.length := by
  induction pre with
  | nil => simp [List.findIdx?_cons, hb]
  | cons x pre ih =>
    have hx : p x = false := hpre x (List.mem_cons_self x pre)
    have ih' := ih (fun y hy => hpre y (List.mem_cons_of_mem x hy))
    simp [List.findIdx?_cons, hx, ih']

/-- Absent key means `findIdx?` finds nothing. -/
theorem findIdx?_eq_none_of_all_false {α : Type} (p : α → Bool) (l : List α)
    (h : ∀ x ∈ l, p x = false) : l.findIdx? p = none := by
  induction l with
  | nil => simp
  | cons a l ih =>
    have ha := h a (List.mem_cons_self a l)
    simp [List.findIdx?_cons, ha, ih (fun y hy => h y (List.mem_cons_of_mem a hy))]

/-- `modifyAt` hits exactly the element after the prefix. -/
theorem modifyAt_append (f : Budget → Budget) (pre : List Budget) (b : Budget)
    (post : List Budget) :
    modifyAt f pre.length (pre ++ b :: post) = pre ++ f b :: post := by
  induction pre with
  | nil => rfl
  | cons x pre ih => simpa [modifyAt] using ih

/-- A clean prefix is skipped by `find?`. -/
theorem find?_append_clean {α : Type} (p : α → Bool) (pre l : List α)
    (hpre : ∀ x ∈ pre, p x = false) : (pre ++ l).find? p = l.find? p := by
  induction pre with
  | nil => rfl
  | cons x pre ih =>
    have hx : p x = false := hpre x (List.mem_cons_self x pre)
    simp [List.find?_cons, hx, ih (fun y hy => hpre y (List.mem_cons_of_mem x hy))]

/-- Matching the draft is the same Boolean test as matching its
`(month, category)` pair. -/
theorem budgetMatches_iff_pair (d : BudgetDraft) (b : Budget) :
    budgetMatches d b = decide (b.month = d.month ∧ b.category = d.category) := by
  simp [budgetMatches, Bool.and_comm]

/-- Upsert on a state containing a match: the first matching entry is replaced
in place by the amount/updatedAt update. -/
theorem addOrUpdateBudget_found (bs : List Budget) (d : BudgetDraft)
    (timestamp freshId : String) (pre : List Budget) (b : Budget) (post : List Budget)
    (hbs : bs = pre ++ b :: post) (hb : budgetMatches d b = true)
    (hpre : ∀ x ∈ pre, budgetMatches d x = false) :
    addOrUpdateBudget bs d timestamp freshId
      = pre ++ { b with amount := d.amount, updatedAt := timestamp } :: post := by
  subst hbs
  rw [addOrUpdateBudget, findIdx?_first_match (budgetMatches d) pre b post hb hpre]
  exact modifyAt_append _ pre b post

/-- Upsert on a state with no match: the new budget is appended. -/
theorem addOrUpdateBudget_not_found (bs : List Budget) (d : BudgetDraft)
    (timestamp freshId : String) (h : ∀ x ∈ bs, budgetMatches d x = false) :
    addOrUpdateBudget bs d timestamp freshId
      = bs ++ [{ id := freshId, month := d.month, category := d.category,
                 amount := d.amount, createdAt := timestamp, updatedAt := timestamp }] := by
  rw [addOrUpdateBudget, findIdx?_eq_none_of_all_false (budgetMatches d) bs h]

/-- `pairCount` distributes over append. -/
theorem pairCount_append (l1 l2 : List Budget) (m : MonthKey) (c : String) :
    pairCount (l1 ++ l2) m c = pairCount l1 m c + pairCount l2 m c := by
  simp [pairCount, List.countP_append]

/-- `pairCount` on a cons. -/
theorem pairCount_cons (b : Budget) (l : List Budget) (m : MonthKey) (c : String) :
    pairCount (b :: l) m c
      = pairCount l m c + if b.month = m ∧ b.category = c then 1 else 0 := by
  simp [pairCount, List.countP_cons]

/-- A list all of whose entries fail `budgetMatches d` has no entry for the
draft's pair. -/
theorem pairCount_eq_zero_of_clean (l : List Budget) (d : BudgetDraft)
    (h : ∀ x ∈ l, budgetMatches d x = false) :
    pairCount l d.month d.category = 0 := by
  apply List.countP_eq_zero.mpr
  intro x hx hpx
  have hxp : budgetMatches d x = true := by
    rw [budgetMatches_iff_pair]
    exact hpx
  rw [h x hx] at hxp
  exact Bool.false_ne_true hxp

/-- The amount/updatedAt replacement keeps a budget's pair. -/
theorem pairPred_update (b : Budget) (a : Rat) (t : String) (m : MonthKey) (c : String) :
    (({ b with amount := a, updatedAt := t } : Budget).month = m
        ∧ ({ b with amount := a, updatedAt := t } : Budget).category = c)
      ↔ (b.month = m ∧ b.category = c) := Iff.rfl

/-- After one upsert the draft's pair occurs exactly once. -/
theorem pairCount_addOrUpdateBudget (bs : List Budget) (d : BudgetDraft)
    (timestamp freshId : String) (h : PairUnique bs) :
    pairCount (addOrUpdateBudget bs d timestamp freshId) d.month d.category = 1 := by
  by_cases hex : ∃ x ∈ bs, budgetMatches d x = true
  · obtain ⟨pre, b, post, rfl, hb, hpre⟩ := exists_first_match _ _ hex
    rw [addOrUpdateBudget_found _ d timestamp freshId pre b post rfl hb hpre]
    have hbpair : b.month = d.month ∧ b.category = d.category := by
      have := (budgetMatches_iff_pair d b) ▸ hb
      exact of_decide_eq_true this
    have hpre0 : pairCount pre d.month d.category = 0 :=
      pairCount_eq_zero_of_clean pre d hpre
    have hcount := h d.month d.category
    rw [pairCount_append, pairCount_cons, hpre0, if_pos hbpair] at hcount
    rw [pairCount_append, pairCount_cons, hpre0, if_pos ((pairPred_update b _ _ _ _).mpr hbpair)]
    omega
  · push_neg at hex
    have hall : ∀ x ∈ bs, budgetMatches d x = false :=
      fun x hx => Bool.eq_false_iff.mpr (hex x hx)
    rw [addOrUpdateBudget_not_found _ d timestamp freshId hall]
    rw [pairCount_append, pairCount_eq_zero_of_clean bs d hall, pairCount_cons]
    simp [pairCount]

/-- Upsert preserves the at-most-one-budget-per-pair invariant. -/
theorem pairUnique_addOrUpdateBudget (bs : List Budget) (d : BudgetDraft)
    (timestamp freshId : String) (h : PairUnique bs) :
    PairUnique (addOrUpdateBudget bs d timestamp freshId) := by
  intro m c
  by_cases hex : ∃ x ∈ bs, budgetMatches d x = true
  · obtain ⟨pre, b, post, rfl, hb, hpre⟩ := exists_first_match _ _ hex
    rw [addOrUpdateBudget_found _ d timestamp freshId pre b post rfl hb hpre]
    have hmc := h m c
    rw [pairCount_append, pairCount_cons] at hmc
    rw [pairCount_append, pairCount_cons]
    by_cases hbp : b.month = m ∧ b.category = c
    · rw [if_pos hbp] at hmc
      rw [if_pos ((pairPred_update b _ _ _ _).mpr hbp)]
      exact hmc
    · rw [if_neg hbp] at hmc
      rw [if_neg (fun hc => hbp ((pairPred_update b _ _ _ _).mp hc))]
      exact hmc
  · push_neg at hex
    have hall : ∀ x ∈ bs, budgetMatches d x = false :=
      fun x hx => Bool.eq_false_iff.mpr (hex x hx)
    rw [addOrUpdateBudget_not_found _ d timestamp freshId hall]
    rw [pairCount_append, pairCount_cons]
    by_cases hnew : d.month = m ∧ d.category = c
    · obtain ⟨rfl, rfl⟩ := hnew
      rw [pairCount_eq_zero_of_clean bs d hall]
      simp [pairCount]
    · rw [if_neg (fun hc => hnew ⟨hc.1, hc.2⟩)]
      simpa [pairCount] using h m c

/-- When a match exists, upserting keeps the id of the (unique) matching entry. -/
theorem find?_id_addOrUpdateBudget (bs : List Budget) (d : BudgetDraft)
    (timestamp freshId : String) (hex : ∃ x ∈ bs, budgetMatches d x = true) :
    ((addOrUpdateBudget bs d timestamp freshId).find? (budgetMatches d)).map (·.id)
      = (bs.find? (budgetMatches d)).map (·.id) := by
  obtain ⟨pre, b, post, rfl, hb, hpre⟩ := exists_first_match _ _ hex
  rw [addOrUpdateBudget_found _ d timestamp freshId pre b post rfl hb hpre,
    find?_append_clean _ pre _ hpre, find?_append_clean _ pre _ hpre]
  have hb' : budgetMatches d { b with amount := d.amount, updatedAt := timestamp } = true := hb
  rw [List.find?_cons_of_pos _ hb', List.find?_cons_of_pos _ hb]
  simp

/-- C5: in a state with at most one budget per `(month, category)` pair,
`addOrUpdateBudget` preserves the invariant; when the pair exists it replaces
only that entry's `amount` and `updatedAt` (keeping `id`, `createdAt` and the
list length), otherwise it appends exactly one new budget carrying the fresh id;
and repeating the identical call leaves exactly one budget for the pair, with
its id unchanged across the calls. -/
theorem addOrUpdateBudget_upsert (bs : List Budget) (d : BudgetDraft)
    (ts1 id1 ts2 id2 : String) (h : PairUnique bs) :
    PairUnique (addOrUpdateBudget bs d ts1 id1)
    ∧ ((∃ b ∈ bs, budgetMatches d b = true) →
        ∃ pre b post, bs = pre ++ b :: post ∧ budgetMatches d b = true
          ∧ (∀ x ∈ pre, budgetMatches d x = false)
          ∧ addOrUpdateBudget bs d ts1 id1
              = pre ++ { b with amount := d.amount, updatedAt := ts1 } :: post
          ∧ (addOrUpdateBudget bs d ts1 id1).length = bs.length)
    ∧ ((∀ b ∈ bs, budgetMatches d b = false) →
        addOrUpdateBudget bs d ts1 id1
          = bs ++ [{ id := id1, month := d.month, category := d.category,
                     amount := d.amount, createdAt := ts1, updatedAt := ts1 }])
    ∧ pairCount (addOrUpdateBudget bs d ts1 id1) d.month d.category = 1
    ∧ pairCount (addOrUpdateBudget (addOrUpdateBudget bs d ts1 id1) d ts2 id2)
        d.month d.category = 1
    ∧ ((addOrUpdateBudget (addOrUpdateBudget bs d ts1 id1) d ts2 id2).find?
          (budgetMatches d)).map (·.id)
        = ((addOrUpdateBudget bs d ts1 id1).find? (budgetMatches d)).map (·.id) := by
  have h1 : PairUnique (addOrUpdateBudget bs d ts1 id1) :=
    pairUnique_addOrUpdateBudget bs d ts1 id1 h
  have hcount1 : pairCount (addOrUpdateBudget bs d ts1 id1) d.month d.category = 1 :=
    pairCount_addOrUpdateBudget bs d ts1 id1 h
  have hex1 : ∃ x ∈ addOrUpdateBudget bs d ts1 id1, budgetMatches d x = true := by
    have hpos : 0 < (addOrUpdateBudget bs d ts1 id1).countP
        (fun b => decide (b.month = d.month ∧ b.category = d.category)) := by
      have h1 := hcount1
      unfold pairCount at h1
      omega
    obtain ⟨x, hx, hpx⟩ := List.countP_pos_iff.mp hpos
    exact ⟨x, hx, by rw [budgetMatches_iff_pair]; exact hpx⟩
  refine ⟨h1, ?_, ?_, hcount1, pairCount_addOrUpdateBudget _ d ts2 id2 h1,
    find?_id_addOrUpdateBudget _ d ts2 id2 hex1⟩
  · intro hex
    obtain ⟨pre, b, post, hbs, hb, hpre⟩ := exists_first_match _ _ hex
    refine ⟨pre, b, post, hbs, hb, hpre, ?_, ?_⟩
    · exact addOrUpdateBudget_found bs d ts1 id1 pre b post hbs hb hpre
    · rw [addOrUpdateBudget_found bs d ts1 id1 pre b post hbs hb hpre, hbs]
      simp
  · intro hall
    exact addOrUpdateBudget_not_found bs d ts1 id1 hall

/-- C5 witness: upserting the example draft into the empty store (which trivially
satisfies the invariant) leaves exactly one budget for the pair. -/
theorem addOrUpdateBudget_upsert_witness :
    pairCount (addOrUpdateBudget [] exampleDraft "t1" "bgt_1") exampleDraft.month
      exampleDraft.category = 1 :=
  (addOrUpdateBudget_upsert [] exampleDraft "t1" "bgt_1" "t2" "bgt_2"
    (fun m c => by simp [pairCount])).2.2.2.1

/-- With unique ids, `find?` by id locates exactly the member carrying the id. -/
theorem find?_eq_some_of_nodup_ids (ts : List Transaction) (id : String)
    (hnd : (ts.map (·.id)).Nodup) (t0 : Transaction) (ht0 : t0 ∈ ts)
    (hid : t0.id = id) :
    ts.find? (fun t => decide (t.id = id)) = some t0 := by
  induction ts with
  | nil => cases ht0
  | cons a l ih =>
    rw [List.map_cons, List.nodup_cons] at hnd
    rcases List.mem_cons.mp ht0 with rfl | hmem
    · exact List.find?_cons_of_pos _ (by simpa using hid)
    · have ha : ¬ a.id = id := by
        intro hai
        exact hnd.1 (by rw [hai, ← hid]; exact List.mem_map.mpr ⟨t0, hmem, rfl⟩)
      rw [List.find?_cons_of_neg _ (by simpa using ha)]
      exact ih hnd.2 hmem

/-- Patching never changes a transaction's id. -/
theorem applyPatch_id (t : Transaction) (p : TransactionPatch) (now : String) :
    (applyPatch t p now).id = t.id := rfl

/-- With unique ids, mapping the conditional patch over the list and then
searching by id yields the patched unique carrier of the id. -/
theorem find?_map_patch (ts : List Transaction) (id : String)
    (p : TransactionPatch) (now : String) (hnd : (ts.map (·.id)).Nodup)
    (t0 : Transaction) (ht0 : t0 ∈ ts) (hid : t0.id = id) :
    (ts.map (fun t => if t.id = id then applyPatch t p now else t)).find?
        (fun t => decide (t.id = id)) = some (applyPatch t0 p now) := by
  induction ts with
  | nil => cases ht0
  | cons a l ih =>
    rw [List.map_cons, List.nodup_cons] at hnd
    rcases List.mem_cons.mp ht0 with rfl | hmem
    · rw [List.map_cons, if_pos hid]
      exact List.find?_cons_of_pos _ (by simp [applyPatch_id, hid])
    · have ha : ¬ a.id = id := by
        intro hai
        exact hnd.1 (by rw [hai, ← hid]; exact List.mem_map.mpr ⟨t0, hmem, rfl⟩)
      rw [List.map_cons, if_neg ha, List.find?_cons_of_neg _ (by simpa using ha)]
      exact ih hnd.2 hmem

/-- C8: `updateTransaction` rejects with the not-found error and leaves the list
unchanged when no stored transaction has the id; when (under the unique-id
invariant) one does, it resolves with that transaction with the patch fields
merged in and `updatedAt` set to the supplied current time, and every other
position of the list is unchanged. -/
theorem updateTransaction_spec (ts : List Transaction) (id : String)
    (p : TransactionPatch) (now : String) :
    ((∀ t ∈ ts, t.id ≠ id) →
      updateTransaction ts id p now
        = (.error ("Transaction with ID " ++ id ++ " not found"), ts))
    ∧ ((ts.map (·.id)).Nodup →
      ∀ t0 ∈ ts, t0.id = id →
        (updateTransaction ts id p now).1 = .ok (some (applyPatch t0 p now))
        ∧ (applyPatch t0 p now).updatedAt = now
        ∧ ((updateTransaction ts id p now).2).length = ts.length
        ∧ (∀ (j : Nat) (t : Transaction), ts[j]? = some t → t.id ≠ id →
            ((updateTransaction ts id p now).2)[j]? = some t)
        ∧ (∃ j : Nat, ts[j]? = some t0
            ∧ ((updateTransaction ts id p now).2)[j]? = some (applyPatch t0 p now))) := by
  constructor
  · intro h
    have hf : ts.find? (fun t => decide (t.id = id)) = none :=
      List.find?_eq_none.mpr (fun t ht => by simpa using h t ht)
    simp [updateTransaction, hf]
  · intro hnd t0 ht0 hid
    have hf : ts.find? (fun t => decide (t.id = id)) = some t0 :=
      find?_eq_some_of_nodup_ids ts id hnd t0 ht0 hid
    have hres : updateTransaction ts id p now
        = (.ok ((ts.map (fun t => if t.id = id then applyPatch t p now else t)).find?
            (fun t => decide (t.id = id))),
           ts.map (fun t => if t.id = id then applyPatch t p now else t)) := by
      rw [updateTransaction, hf]
    refine ⟨?_, rfl, ?_, ?_, ?_⟩
    · rw [hres]
      simp only []
      rw [find?_map_patch ts id p now hnd t0 ht0 hid]
    · rw [hres]
      simp
    · intro j t hj htid
      rw [hres]
      simp [List.getElem?_map, hj, htid]
    · obtain ⟨j, hj⟩ := List.getElem?_of_mem ht0
      refine ⟨j, hj, ?_⟩
      rw [hres]
      simp [List.getElem?_map, hj, hid]

/-- C8 witness: patching the amount of the single stored transaction by its id
resolves with the patched transaction. -/
theorem updateTransaction_spec_witness :
    (updateTransaction exampleTxns "t1" examplePatch "now").1
      = .ok (some (applyPatch exampleTxn examplePatch "now")) :=
  ((updateTransaction_spec exampleTxns "t1" examplePatch "now").2 (by decide)
    exampleTxn (by decide) (by decide)).1

/-- Reading a bumped object: the bumped key now holds its old value (default 0)
plus the increment; other keys are untouched. -/
theorem objGet_bumpCategory (acc : List (String × Rat)) (k c : String) (v : Rat) :
    objGet (bumpCategory acc k v) c
      = if c = k then some ((objGet acc k).getD 0 + v) else objGet acc c := by
  induction acc with
  | nil =>
    by_cases hck : c = k
    · subst hck
      simp [bumpCategory, objGet]
    · simp [bumpCategory, objGet, hck, Ne.symm hck]
  | cons p rest ih =>
    by_cases hp : p.1 = k
    · subst hp
      by_cases hck : c = p.1
      · subst hck
        simp [bumpCategory, objGet]
      · have hpc : ¬ p.1 = c := Ne.symm hck
        simp [bumpCategory, objGet, hck, hpc]
    · by_cases hpc : p.1 = c
      · have hck : ¬ c = k := fun h => hp (by rw [hpc, h])
        simp [bumpCategory, objGet, hp, hpc, hck]
      · simp [bumpCategory, objGet, hp, hpc, ih]

/-- Keys of a bumped object: the old keys plus (possibly) the bumped key. -/
theorem mem_keys_bumpCategory (acc : List (String × Rat)) (k c : String) (v : Rat) :
    c ∈ (bumpCategory acc k v).map Prod.fst ↔ c ∈ acc.map Prod.fst ∨ c = k := by
  induction acc with
  | nil => simp [bumpCategory, eq_comm]
  | cons p rest ih =>
    by_cases hp : p.1 = k
    · subst hp
      rw [bumpCategory, if_pos rfl]
      simp only [List.map_cons, List.mem_cons]
      constructor
      · rintro (h | h)
        · exact Or.inr h
        · exact Or.inl (Or.inr h)
      · rintro ((h | h) | h)
        · exact Or.inl h
        · exact Or.inr h
        · exact Or.inl h
    · rw [bumpCategory, if_neg hp]
      simp only [List.map_cons, List.mem_cons, ih]
      tauto

/-- Bumping keeps the keys of the object duplicate-free. -/
theorem nodup_keys_bumpCategory (acc : List (String × Rat)) (k : String) (v : Rat)
    (h : (acc.map Prod.fst).Nodup) :
    ((bumpCategory acc k v).map Prod.fst).Nodup := by
  induction acc with
  | nil => simp [bumpCategory]
  | cons p rest ih =>
    rw [List.map_cons, List.nodup_cons] at h
    by_cases hp : p.1 = k
    · subst hp
      simpa [bumpCategory, List.nodup_cons] using h
    · rw [bumpCategory]
      simp only [if_neg hp, List.map_cons, List.nodup_cons]
      refine ⟨?_, ih h.2⟩
      rw [mem_keys_bumpCategory]
      rintro (hc | hc)
      · exact h.1 hc
      · exact hp hc

/-- `catSum` on a cons. -/
theorem catSum_cons (c : String) (t : Transaction) (es : List Transaction) :
    catSum c (t :: es)
      = if coercedCategory t = c then |t.amount| + catSum c es else catSum c es := by
  by_cases h : coercedCategory t = c <;> simp [catSum, List.filter_cons, h]

/-- A category with no matching expense has a zero total. -/
theorem catSum_eq_zero (c : String) (es : List Transaction)
    (h : ∀ t ∈ es, ¬ coercedCategory t = c) : catSum c es = 0 := by
  have hf : es.filter (fun t => decide (coercedCategory t = c)) = [] :=
    List.filter_eq_nil_iff.mpr (fun t ht => by simpa using h t ht)
  simp [catSum, hf]

/-- Category totals are sums of absolute values, hence nonnegative. -/
theorem catSum_nonneg (c : String) (es : List Transaction) : 0 ≤ catSum c es := by
  apply List.sum_nonneg
  intro x hx
  obtain ⟨t, _, rfl⟩ := List.mem_map.mp hx
  exact abs_nonneg _

/-- Reading the `categoryTotals` object built by the expense fold: a category's
slot holds the category's expense total plus whatever the accumulator held
(`(... || 0)` coincides with the default-0 read). -/
theorem objGet_catFold_getD (es : List Transaction) :
    ∀ (acc : List (String × Rat)) (c : String),
    (objGet (es.foldl (fun a t => bumpCategory a (coercedCategory t) |t.amount|) acc) c).getD 0
      = (objGet acc c).getD 0 + catSum c es := by
  induction es with
  | nil =>
    intro acc c
    simp [catSum]
  | cons t es ih =>
    intro acc c
    rw [List.foldl_cons, ih, objGet_bumpCategory, catSum_cons]
    by_cases hc : c = coercedCategory t
    · rw [if_pos hc, if_pos hc.symm, hc]
      simp [add_assoc]
    · rw [if_neg hc, if_neg (fun h => hc h.symm)]

/-- Keys of the `categoryTotals` object: exactly the accumulator's keys plus the
coerced categories of the folded expenses. -/
theorem mem_keys_catFold (es : List Transaction) :
    ∀ (acc : List (String × Rat)) (c : String),
    (c ∈ (es.foldl (fun a t => bumpCategory a (coercedCategory t) |t.amount|) acc).map Prod.fst)
      ↔ c ∈ acc.map Prod.fst ∨ ∃ t ∈ es, coercedCategory t = c := by
  induction es with
  | nil => intro acc c; simp
  | cons t es ih =>
    intro acc c
    rw [List.foldl_cons, ih, mem_keys_bumpCategory]
    constructor
    · rintro ((hacc | hc) | ⟨u, hu, hcu⟩)
      · exact Or.inl hacc
      · exact Or.inr ⟨t, List.mem_cons_self t es, hc.symm⟩
      · exact Or.inr ⟨u, List.mem_cons_of_mem t hu, hcu⟩
    · rintro (hacc | ⟨u, hu, hcu⟩)
      · exact Or.inl (Or.inl hacc)
      · rcases List.mem_cons.mp hu with rfl | hmem
        · exact Or.inl (Or.inr hcu.symm)
        · exact Or.inr ⟨u, hmem, hcu⟩

/-- The expense fold keeps keys duplicate-free. -/
theorem nodup_keys_catFold (es : List Transaction) :
    ∀ acc : List (String × Rat), (acc.map Prod.fst).Nodup →
    ((es.foldl (fun a t => bumpCategory a (coercedCategory t) |t.amount|) acc).map
      Prod.fst).Nodup := by
  induction es with
  | nil => intro acc h; simpa using h
  | cons t es ih =>
    intro acc h
    rw [List.foldl_cons]
    exact ih _ (nodup_keys_bumpCategory acc _ _ h)

/-- Membership in the JS `Set` insertion. -/
theorem mem_setInsert (l : List String) (x y : String) :
    y ∈ setInsert l x ↔ y ∈ l ∨ y = x := by
  by_cases h : x ∈ l
  · simp only [setInsert, if_pos h]
    constructor
    · exact Or.inl
    · rintro (hy | rfl)
      · exact hy
      · exact h
  · simp [setInsert, if_neg h]

/-- The JS `Set` insertion keeps the list duplicate-free. -/
theorem nodup_setInsert (l : List String) (x : String) (h : l.Nodup) :
    (setInsert l x).Nodup := by
  by_cases hx : x ∈ l
  · simpa [setInsert, hx] using h
  · simp [setInsert, hx, List.nodup_append, h]

/-- Membership in the folded JS `Set`. -/
theorem mem_setFold (xs : List String) :
    ∀ (acc : List String) (y : String),
    y ∈ xs.foldl setInsert acc ↔ y ∈ acc ∨ y ∈ xs := by
  induction xs with
  | nil => intro acc y; simp
  | cons x xs ih =>
    intro acc y
    rw [List.foldl_cons, ih, mem_setInsert]
    constructor
    · rintro ((hy | rfl) | hy)
      · exact Or.inl hy
      · exact Or.inr (List.mem_cons_self _ _)
      · exact Or.inr (List.mem_cons_of_mem x hy)
    · rintro (hy | hy)
      · exact Or.inl (Or.inl hy)
      · rcases List.mem_cons.mp hy with rfl | hmem
        · exact Or.inl (Or.inr rfl)
        · exact Or.inr hmem

/-- The folded JS `Set` is duplicate-free. -/
theorem nodup_setFold (xs : List String) :
    ∀ acc : List String, acc.Nodup → (xs.foldl setInsert acc).Nodup := by
  induction xs with
  | nil => intro acc h; simpa using h
  | cons x xs ih =>
    intro acc h
    rw [List.foldl_cons]
    exact ih _ (nodup_setInsert acc x h)

/-- Membership in `jsSetOfList` is membership in the underlying list. -/
theorem mem_jsSetOfList (xs : List String) (y : String) :
    y ∈ jsSetOfList xs ↔ y ∈ xs := by
  rw [jsSetOfList, mem_setFold]
  simp

/-- `jsSetOfList` is duplicate-free. -/
theorem nodup_jsSetOfList (xs : List String) : (jsSetOfList xs).Nodup :=
  nodup_setFold xs [] List.nodup_nil

/-- The categories of the comparison rows are exactly the deduplicated union
fed to the `Set`. -/
theorem compareBudget_map_category (ts : List Transaction) (bs : List Budget)
    (m : MonthKey) :
    (compareBudgetWithActual ts bs m).map (·.category)
      = jsSetOfList ((calculateMonthlyExpensesByCategory ts m).map Prod.fst
          ++ (bs.filter (fun b => decide (b.month = m))).map Budget.category) := by
  rw [compareBudgetWithActual, List.map_map]
  exact List.map_id _

/-- Row-level characterisation of `compareBudgetWithActual`: every row reads its
`budgeted` from the first matching month budget, its `actual` from the
`categoryTotals` object, and its `difference` is their difference. -/
theorem compareBudget_row (ts : List Transaction) (bs : List Budget) (m : MonthKey)
    (r : ComparisonRow) (hr : r ∈ compareBudgetWithActual ts bs m) :
    r.budgeted = ((((bs.filter (fun b => decide (b.month = m))).find?
          (fun b => decide (b.category = r.category))).map (·.amount)).getD 0)
    ∧ r.actual = (objGet (calculateMonthlyExpensesByCategory ts m) r.category).getD 0
    ∧ r.difference = r.budgeted - r.actual := by
  rw [compareBudgetWithActual] at hr
  obtain ⟨c, _, rfl⟩ := List.mem_map.mp hr
  refine ⟨?_, rfl, rfl⟩
  cases hf : (bs.filter (fun b => decide (b.month = m))).find?
      (fun b => decide (b.category = c)) <;> simp [hf]

/-- The `actual` read of a category is its monthly expense total. -/
theorem objGet_monthlyCategory (ts : List Transaction) (m : MonthKey) (c : String) :
    (objGet (calculateMonthlyExpensesByCategory ts m) c).getD 0
      = catSum c (monthlyExpenses ts m) := by
  rw [calculateMonthlyExpensesByCategory, objGet_catFold_getD]
  simp [objGet]

/-- C1: the categories of `compareBudgetWithActual transactions budgets m` are
exactly the union of the categories of the budgets whose month is `m` and the
coerced categories of the negative-amount transactions dated within `m`; and
every returned row satisfies `difference = budgeted - actual`, where `budgeted`
is the amount of that month's budget for the category (0 if none) and `actual`
is the sum of the absolute values of that category's expense amounts in `m`
(0 if none). -/
theorem compareBudgetWithActual_spec (ts : List Transaction) (bs : List Budget)
    (m : MonthKey) :
    ((compareBudgetWithActual ts bs m).map (·.category)).toFinset
      = ((bs.filter (fun b => decide (b.month = m))).map Budget.category).toFinset
        ∪ ((monthlyExpenses ts m).map coercedCategory).toFinset
    ∧ ∀ r ∈ compareBudgetWithActual ts bs m,
        r.difference = r.budgeted - r.actual
        ∧ r.budgeted = ((((bs.filter (fun b => decide (b.month = m))).find?
              (fun b => decide (b.category = r.category))).map (·.amount)).getD 0)
        ∧ r.actual = catSum r.category (monthlyExpenses ts m) := by
  constructor
  · ext c
    rw [compareBudget_map_category]
    simp only [List.mem_toFinset, Finset.mem_union, mem_jsSetOfList, List.mem_append]
    constructor
    · rintro (hk | hbud)
      · right
        rw [calculateMonthlyExpensesByCategory] at hk
        have := (mem_keys_catFold (monthlyExpenses ts m) [] c).mp hk
        simp only [List.map_nil, List.not_mem_nil, false_or] at this
        obtain ⟨t, ht, hct⟩ := this
        exact List.mem_map.mpr ⟨t, ht, hct⟩
      · exact Or.inl hbud
    · rintro (hbud | hexp)
      · exact Or.inr hbud
      · left
        rw [calculateMonthlyExpensesByCategory]
        apply (mem_keys_catFold (monthlyExpenses ts m) [] c).mpr
        obtain ⟨t, ht, hct⟩ := List.mem_map.mp hexp
        exact Or.inr ⟨t, ht, hct⟩
  · intro r hr
    obtain ⟨hb, ha, hd⟩ := compareBudget_row ts bs m r hr
    exact ⟨hd, hb, by rw [ha, objGet_monthlyCategory]⟩

/-- Evaluation of the comparison on the example data: one grocery row with 100
budgeted, 50 actually spent, difference 50. -/
theorem compareBudget_example_eval :
    compareBudgetWithActual exampleTxns exampleBudgets exampleMonth = [exampleRow] := by
  simp only [compareBudgetWithActual, calculateMonthlyExpensesByCategory, monthlyExpenses,
    getTransactionsForMonth, jsSetOfList, setInsert, bumpCategory, objGet, coercedCategory,
    exampleTxns, exampleTxn, exampleBudgets, exampleMonth, exampleRow, List.filter,
    List.foldl, List.map, List.mem_singleton, List.mem_cons, List.not_mem_nil]
  simp
  norm_num

/-- Membership of the example row in the example comparison. -/
theorem exampleRow_mem :
    exampleRow ∈ compareBudgetWithActual exampleTxns exampleBudgets exampleMonth := by
  rw [compareBudget_example_eval]
  exact List.mem_singleton.mpr rfl

/-- C1 witness: on the example data (one 50 grocery expense and a 100 grocery
budget for 2025-01) the single row is the grocery row with
`difference = budgeted - actual`. -/
theorem compareBudgetWithActual_spec_witness :
    exampleRow ∈ compareBudgetWithActual exampleTxns exampleBudgets exampleMonth
    ∧ (exampleRow.difference = exampleRow.budgeted - exampleRow.actual
        ∧ exampleRow.budgeted
            = ((((exampleBudgets.filter (fun b => decide (b.month = exampleMonth))).find?
                (fun b => decide (b.category = exampleRow.category))).map (·.amount)).getD 0)
        ∧ exampleRow.actual
            = catSum exampleRow.category (monthlyExpenses exampleTxns exampleMonth)) :=
  ⟨exampleRow_mem,
   (compareBudgetWithActual_spec exampleTxns exampleBudgets exampleMonth).2
     exampleRow exampleRow_mem⟩

/-- C10: the rows of `compareBudgetWithActual` have pairwise distinct categories
— even when several budgets exist for the same `(month, category)` pair exactly
one row is emitted per category, carrying the first matching budget's amount —
and every row's `actual` is nonnegative. -/
theorem compareBudgetWithActual_distinct (ts : List Transaction) (bs : List Budget)
    (m : MonthKey) :
    ((compareBudgetWithActual ts bs m).map (·.category)).Nodup
    ∧ ∀ r ∈ compareBudgetWithActual ts bs m,
        0 ≤ r.actual
        ∧ ∀ b : Budget, (bs.filter (fun b => decide (b.month = m))).find?
              (fun x => decide (x.category = r.category)) = some b →
            r.budgeted = b.amount := by
  constructor
  · rw [compareBudget_map_category]
    exact nodup_jsSetOfList _
  · intro r hr
    obtain ⟨hb, ha, _⟩ := compareBudget_row ts bs m r hr
    constructor
    · rw [ha, objGet_monthlyCategory]
      exact catSum_nonneg _ _
    · intro b hfind
      rw [hb, hfind]
      rfl

/-- C10 witness: on the example data the categories are distinct and the single
row has nonnegative actual spending and the first matching budget's amount. -/
theorem compareBudgetWithActual_distinct_witness :
    exampleRow ∈ compareBudgetWithActual exampleTxns exampleBudgets exampleMonth
    ∧ 0 ≤ exampleRow.actual
    ∧ (∀ b : Budget, (exampleBudgets.filter
            (fun b => decide (b.month = exampleMonth))).find?
          (fun x => decide (x.category = exampleRow.category)) = some b →
        exampleRow.budgeted = b.amount) :=
  ⟨exampleRow_mem,
   ((compareBudgetWithActual_distinct exampleTxns exampleBudgets exampleMonth).2
      exampleRow exampleRow_mem).1,
   ((compareBudgetWithActual_distinct exampleTxns exampleBudgets exampleMonth).2
      exampleRow exampleRow_mem).2⟩

/-- The head of a stable insertion sort is related to every element: with a
total transitive relation it is a maximum for that relation. -/
theorem head_insertionSort_max {α : Type} (r : α → α → Prop) [DecidableRel r]
    [IsTotal α r] [IsTrans α r] (l : List α) (w : α)
    (hw : (List.insertionSort r l).head? = some w) :
    w ∈ l ∧ ∀ a ∈ l, r w a := by
  have hperm := List.perm_insertionSort r l
  have hsorted := List.sorted_insertionSort r l
  cases hs : List.insertionSort r l with
  | nil => rw [hs] at hw; cases hw
  | cons x rest =>
    rw [hs] at hw
    have hx : x = w := by
      injection hw
    subst hx
    rw [hs] at hperm hsorted
    rw [List.sorted_cons] at hsorted
    constructor
    · exact hperm.mem_iff.mp (List.mem_cons_self _ _)
    · intro a ha
      rcases List.mem_cons.mp (hperm.mem_iff.mpr ha) with rfl | hmem
      · exact (IsTotal.total a a).elim id id
      · exact hsorted.1 a hmem

/-- A sort of a nonempty list has a head. -/
theorem insertionSort_head?_of_ne_nil {α : Type} (r : α → α → Prop) [DecidableRel r]
    (l : List α) (h : l ≠ []) :
    ∃ w, (List.insertionSort r l).head? = some w := by
  have hperm := List.perm_insertionSort r l
  cases hs : List.insertionSort r l with
  | nil =>
    rw [hs] at hperm
    exact absurd hperm.symm.eq_nil h
  | cons x rest => exact ⟨x, rfl⟩

/-- Unfolding `generateInsights` on a nonempty comparison list. -/
theorem generateInsights_eq (bc : List ComparisonRow) (stats : Stats) (h : bc ≠ []) :
    generateInsights bc stats
      = (overallInsights bc ++ overInsights bc ++ underInsights bc ++ topInsights bc
          ++ zeroInsights bc, sortedByActual bc) := by
  rw [generateInsights, if_neg]
  simp [List.isEmpty_iff, h]

/-- When the total budget is positive the overall insight is a singleton. -/
theorem overallInsights_singleton (bc : List ComparisonRow)
    (h : 0 < totalBudgeted bc) : ∃ u, overallInsights bc = [u] := by
  rw [overallInsights, if_pos h]
  split_ifs <;> exact ⟨_, rfl⟩

/-- C3: for every nonempty comparison list, if the total budgeted amount is
positive the first emitted insight is the overall-utilization one, `warning`
when total actual exceeds total budgeted and `success` otherwise; and if some
row is over budget, the next emitted insight is the worst-over-budget one,
naming a row whose overage `actual - budgeted` is maximal, with severity
`warning`. -/
theorem generateInsights_priority (bc : List ComparisonRow) (stats : Stats)
    (hne : bc ≠ []) :
    (0 < totalBudgeted bc →
      ∃ i, ((generateInsights bc stats).1).head? = some i
        ∧ i.kind = InsightKind.overallBudget
        ∧ i.severity = (if totalBudgeted bc < totalActual bc then Severity.warning
            else Severity.success))
    ∧ ((∃ r ∈ bc, 0 < r.budgeted ∧ r.budgeted < r.actual) →
      ∃ i, ((generateInsights bc stats).1)[(if 0 < totalBudgeted bc then 1 else 0)]?
            = some i
        ∧ i.kind = InsightKind.overCategory
        ∧ i.severity = Severity.warning
        ∧ ∃ w ∈ bc, 0 < w.budgeted ∧ w.budgeted < w.actual
            ∧ i.category = some w.category
            ∧ i.amount = w.actual - w.budgeted
            ∧ ∀ r ∈ bc, 0 < r.budgeted → r.budgeted < r.actual →
                r.actual - r.budgeted ≤ w.actual - w.budgeted) := by
  rw [generateInsights_eq bc stats hne]
  constructor
  · intro htb
    rw [overallInsights, if_pos htb]
    by_cases hlt : totalBudgeted bc < totalActual bc
    · rw [if_pos hlt, if_pos hlt]
      exact ⟨{ kind := .overallBudget, category := none,
               amount := totalActual bc - totalBudgeted bc,
               percentNum := some (totalActual bc),
               percentDenom := some (totalBudgeted bc),
               severity := .warning }, by simp, rfl, rfl⟩
    · rw [if_neg hlt, if_neg hlt]
      exact ⟨{ kind := .overallBudget, category := none,
               amount := totalBudgeted bc - totalActual bc,
               percentNum := some (totalActual bc),
               percentDenom := some (totalBudgeted bc),
               severity := .success }, by simp, rfl, rfl⟩
  · intro hex
    have hfil : bc.filter (fun r => decide (0 < r.budgeted ∧ r.budgeted < r.actual)) ≠ [] := by
      obtain ⟨r, hr, h1, h2⟩ := hex
      intro hnil
      have hmem : r ∈ bc.filter (fun r => decide (0 < r.budgeted ∧ r.budgeted < r.actual)) :=
        List.mem_filter.mpr ⟨hr, by simp [h1, h2]⟩
      rw [hnil] at hmem
      cases hmem
    obtain ⟨w, hw⟩ := insertionSort_head?_of_ne_nil overageGE _ hfil
    obtain ⟨hwmem, hwmax⟩ := head_insertionSort_max overageGE _ w hw
    have hwbc : w ∈ bc := (List.mem_filter.mp hwmem).1
    have hwcond : 0 < w.budgeted ∧ w.budgeted < w.actual := by
      have := (List.mem_filter.mp hwmem).2
      simpa using this
    have hover : overInsights bc
        = [{ kind := .overCategory, category := some w.category,
             amount := w.actual - w.budgeted,
             percentNum := some (w.actual - w.budgeted), percentDenom := some w.budgeted,
             severity := .warning }] := by
      rw [overInsights, overBudgetItems] at *
      rw [hw]
    refine ⟨{ kind := .overCategory, category := some w.category,
              amount := w.actual - w.budgeted,
              percentNum := some (w.actual - w.budgeted),
              percentDenom := some w.budgeted,
              severity := .warning }, ?_, rfl, rfl, w, hwbc, hwcond.1, hwcond.2, rfl, rfl, ?_⟩
    · rw [hover]
      by_cases htb : 0 < totalBudgeted bc
      · rw [if_pos htb]
        obtain ⟨u, hu⟩ := overallInsights_singleton bc htb
        rw [hu]
        simp
      · rw [if_neg htb, overallInsights, if_neg htb]
        simp
    · intro r hr h1 h2
      have hrfil : r ∈ bc.filter (fun r => decide (0 < r.budgeted ∧ r.budgeted < r.actual)) :=
        List.mem_filter.mpr ⟨hr, by simp [h1, h2]⟩
      exact hwmax r hrfil

/-- C3 witness: on the concrete over-budget example list both priority clauses
hold, instantiated by applying the theorem. -/
theorem generateInsights_priority_witness :
    (0 < totalBudgeted overBC →
      ∃ i, ((generateInsights overBC exampleStats).1).head? = some i
        ∧ i.kind = InsightKind.overallBudget
        ∧ i.severity = (if totalBudgeted overBC < totalActual overBC then Severity.warning
            else Severity.success))
    ∧ ((∃ r ∈ overBC, 0 < r.budgeted ∧ r.budgeted < r.actual) →
      ∃ i, ((generateInsights overBC exampleStats).1)[(if 0 < totalBudgeted overBC then 1 else 0)]?
            = some i
        ∧ i.kind = InsightKind.overCategory
        ∧ i.severity = Severity.warning
        ∧ ∃ w ∈ overBC, 0 < w.budgeted ∧ w.budgeted < w.actual
            ∧ i.category = some w.category
            ∧ i.amount = w.actual - w.budgeted
            ∧ ∀ r ∈ overBC, 0 < r.budgeted → r.budgeted < r.actual →
                r.actual - r.budgeted ≤ w.actual - w.budgeted) :=
  generateInsights_priority overBC exampleStats (by decide)

/-- C4: when every comparison row has nonnegative actual spending, every
percentage a generated insight carries was computed against a positive
denominator (the total budget for the utilization insight, the selected
category's budget for the over- and under-budget insights, and the total actual
spending for the top-spending insight) — no `NaN`/`Infinity` percentage can be
emitted. -/
theorem generateInsights_no_zero_denominator (bc : List ComparisonRow) (stats : Stats)
    (h : ∀ r ∈ bc, 0 ≤ r.actual) :
    ∀ i ∈ (generateInsights bc stats).1, ∀ d : Rat, i.percentDenom = some d → 0 < d := by
  intro i hi d hd
  by_cases hne : bc = []
  · subst hne
    simp [generateInsights] at hi
  · rw [generateInsights_eq bc stats hne] at hi
    simp only [List.mem_append] at hi
    have htop : ∀ t : ComparisonRow, (sortedByActual bc).head? = some t →
        0 < t.actual → 0 < totalActual bc := by
      intro t hhead hta
      obtain ⟨htmem, _⟩ := head_insertionSort_max actualGE bc t hhead
      have hle : t.actual ≤ totalActual bc := by
        apply List.single_le_sum
        · intro x hx
          obtain ⟨u, hu, rfl⟩ := List.mem_map.mp hx
          exact h u hu
        · exact List.mem_map.mpr ⟨t, htmem, rfl⟩
      exact lt_of_lt_of_le hta hle
    rcases hi with (((hi | hi) | hi) | hi) | hi
    · rw [overallInsights] at hi
      split_ifs at hi with htb hlt
      · rw [List.mem_singleton] at hi
        subst hi
        simp only [Option.some.injEq] at hd
        rw [← hd]
        exact htb
      · rw [List.mem_singleton] at hi
        subst hi
        simp only [Option.some.injEq] at hd
        rw [← hd]
        exact htb
      · cases hi
    · rw [overInsights] at hi
      cases hhead : (overBudgetItems bc).head? with
      | none => rw [hhead] at hi; cases hi
      | some w =>
        rw [hhead] at hi
        rw [List.mem_singleton] at hi
        subst hi
        simp only [Option.some.injEq] at hd
        rw [← hd]
        have hwmem := (head_insertionSort_max overageGE _ w hhead).1
        have := (List.mem_filter.mp hwmem).2
        simp at this
        exact this.1
    · rw [underInsights] at hi
      cases hhead : (underBudgetItems bc).head? with
      | none => rw [hhead] at hi; cases hi
      | some w =>
        rw [hhead] at hi
        rw [List.mem_singleton] at hi
        subst hi
        simp only [Option.some.injEq] at hd
        rw [← hd]
        have hwmem := (head_insertionSort_max savingsGE _ w hhead).1
        have := (List.mem_filter.mp hwmem).2
        simp at this
        exact this.1
    · rw [topInsights] at hi
      cases hhead : (sortedByActual bc).head? with
      | none => rw [hhead] at hi; cases hi
      | some t =>
        rw [hhead] at hi
        have hi' : i ∈ (if 0 < t.actual then
            [{ kind := InsightKind.topSpending, category := some t.category,
               amount := t.actual, percentNum := some t.actual,
               percentDenom := some (totalActual bc), severity := Severity.info }]
            else ([] : List Insight)) := hi
        split_ifs at hi' with hta
        · rw [List.mem_singleton] at hi'
          subst hi'
          simp only [Option.some.injEq] at hd
          rw [← hd]
          exact htop t hhead hta
        · cases hi'
    · rw [zeroInsights] at hi
      by_cases hz : 0 < ((sortedByActual bc).filter
          (fun r => decide (0 < r.budgeted ∧ r.actual = 0))).length
      · rw [if_pos hz] at hi
        rw [List.mem_singleton] at hi
        subst hi
        cases hd
      · rw [if_neg hz] at hi
        cases hi

/-- C4 witness: on the concrete under-budget example list (whose actuals are
nonnegative, discharged by computation) the utilization insight is emitted and
the theorem yields the positivity of its recorded denominator, the total
budgeted amount. -/
theorem generateInsights_no_zero_denominator_witness :
    0 < totalBudgeted underBC := by
  have h1 : (0 : Rat) < totalBudgeted underBC := by
    norm_num [totalBudgeted, underBC]
  have h2 : ¬ totalBudgeted underBC < totalActual underBC := by
    norm_num [totalBudgeted, totalActual, underBC]
  have hmem : ({ kind := InsightKind.overallBudget, category := none,
                 amount := totalBudgeted underBC - totalActual underBC,
                 percentNum := some (totalActual underBC),
                 percentDenom := some (totalBudgeted underBC),
                 severity := Severity.success } : Insight)
      ∈ (generateInsights underBC exampleStats).1 := by
    rw [generateInsights_eq underBC exampleStats (by decide), overallInsights,
      if_pos h1, if_neg h2]
    simp
  exact generateInsights_no_zero_denominator underBC exampleStats (by decide) _ hmem
    (totalBudgeted underBC) rfl

/-- C2 (refutation of purity): `generateInsights` sorts the `budgetComparison`
array it receives in place (the `budgetComparison.sort((a, b) => b.actual - a.actual)`
of src/unnamed/part_004 lines 525-526 is not applied to a copy), so the caller's
array ends up reordered whenever it was not already sorted descending by
`actual`.  Evaluated here at a concrete two-row input. -/
theorem generateInsights_mutates_input :
    (generateInsights mutationRows exampleStats).2
        = [⟨"B", 0, 2, -2⟩, ⟨"A", 0, 1, -1⟩]
    ∧ (generateInsights mutationRows exampleStats).2 ≠ mutationRows := by
  constructor
  · decide
  · decide

/-- Searching a bumped bucket list: the bumped key's bucket is updated (or
freshly created at the end); other keys are untouched. -/
theorem find?_bumpBucket (g : List MonthBucket) (k0 n0 : String) (v0 : Rat) (k : String) :
    (bumpBucket g k0 n0 v0).find? (fun b => decide (b.key = k))
      = if k = k0 then
          (match g.find? (fun b => decide (b.key = k0)) with
           | some b => some { b with total := b.total + v0 }
           | none => some ⟨n0, v0, k0⟩)
        else g.find? (fun b => decide (b.key = k)) := by
  induction g with
  | nil =>
    by_cases hk : k = k0
    · subst hk
      simp [bumpBucket, List.find?_cons]
    · simp [bumpBucket, List.find?_cons, hk, Ne.symm hk]
  | cons b g ih =>
    by_cases hb : b.key = k0
    · rw [bumpBucket, if_pos hb]
      by_cases hk : k = k0
      · subst hk
        rw [List.find?_cons_of_pos _ (by simp [hb]), List.find?_cons_of_pos _ (by simp [hb]),
          if_pos rfl]
      · rw [List.find?_cons_of_neg _ (by simp [hb, Ne.symm hk]), if_neg hk,
          List.find?_cons_of_neg _ (by simp [hb, Ne.symm hk])]
  -- the two `cons_of_neg` steps use that the head's key `k0` is not `k`
    · rw [bumpBucket, if_neg hb]
      by_cases hbk : b.key = k
      · have hk : ¬ k = k0 := fun h => hb (by rw [hbk, h])
        rw [List.find?_cons_of_pos _ (by simp [hbk]), if_neg hk,
          List.find?_cons_of_pos _ (by simp [hbk])]
      · rw [List.find?_cons_of_neg _ (by simp [hbk]), ih]
        by_cases hk : k = k0
        · rw [if_pos hk, if_pos hk, List.find?_cons_of_neg _ (by simp [hb])]
        · rw [if_neg hk, if_neg hk, List.find?_cons_of_neg _ (by simp [hbk])]

/-- Searching the bucket list built by folding triples: a key's bucket carries
the key's total and the label of the first triple with that key. -/
theorem find?_tripleFold (l : List (String × String × Rat)) :
    ∀ (g : List MonthBucket) (k : String),
    ((l.foldl (fun g p => bumpBucket g p.1 p.2.1 p.2.2) g).find? (fun b => decide (b.key = k)))
      = match g.find? (fun b => decide (b.key = k)) with
        | some b => some { b with total := b.total + keySum k l }
        | none =>
          match l.find? (fun p => decide (p.1 = k)) with
          | some p => some ⟨p.2.1, keySum k l, k⟩
          | none => none := by
  induction l with
  | nil =>
    intro g k
    cases h : g.find? (fun b => decide (b.key = k)) with
    | some b => simp [keySum, h]
    | none => simp [keySum, h]
  | cons p l ih =>
    intro g k
    obtain ⟨k0, n0, v0⟩ := p
    simp only [List.foldl_cons]
    rw [ih, find?_bumpBucket]
    by_cases hk : k = k0
    · subst hk
      have hks : keySum k ((k, n0, v0) :: l) = v0 + keySum k l := by
        simp [keySum, List.filter_cons]
      cases h : g.find? (fun b => decide (b.key = k)) with
      | some b => simp [h, hks, add_assoc]
      | none => simp [h, hks, List.find?_cons]
    · rw [if_neg hk]
      have hks : keySum k ((k0, n0, v0) :: l) = keySum k l := by
        simp [keySum, List.filter_cons, Ne.symm hk]
      have hfind : ((k0, n0, v0) :: l).find? (fun p => decide (p.1 = k))
          = l.find? (fun p => decide (p.1 = k)) :=
        List.find?_cons_of_neg _ (by simp [Ne.symm hk])
      rw [hks, hfind]

/-- Keys of a bumped bucket list. -/
theorem mem_keys_bumpBucket (g : List MonthBucket) (k0 n0 : String) (v0 : Rat)
    (k : String) :
    k ∈ (bumpBucket g k0 n0 v0).map (·.key) ↔ k ∈ g.map (·.key) ∨ k = k0 := by
  induction g with
  | nil => simp [bumpBucket, eq_comm]
  | cons b g ih =>
    by_cases hb : b.key = k0
    · rw [bumpBucket, if_pos hb]
      simp only [List.map_cons, List.mem_cons]
      constructor
      · rintro (h | h)
        · exact Or.inl (Or.inl h)
        · exact Or.inl (Or.inr h)
      · rintro ((h | h) | h)
        · exact Or.inl h
        · exact Or.inr h
        · exact Or.inl (by rw [h, ← hb])
    · rw [bumpBucket, if_neg hb]
      simp only [List.map_cons, List.mem_cons, ih]
      tauto

/-- Bumping keeps bucket keys duplicate-free. -/
theorem nodup_keys_bumpBucket (g : List MonthBucket) (k0 n0 : String) (v0 : Rat)
    (h : (g.map (·.key)).Nodup) :
    ((bumpBucket g k0 n0 v0).map (·.key)).Nodup := by
  induction g with
  | nil => simp [bumpBucket]
  | cons b g ih =>
    rw [List.map_cons, List.nodup_cons] at h
    by_cases hb : b.key = k0
    · rw [bumpBucket, if_pos hb]
      simpa [List.nodup_cons] using h
    · rw [bumpBucket, if_neg hb]
      simp only [List.map_cons, List.nodup_cons]
      refine ⟨?_, ih h.2⟩
      rw [mem_keys_bumpBucket]
      rintro (hc | hc)
      · exact h.1 hc
      · exact hb hc

/-- Keys of the bucket fold over the transactions: the accumulator's keys plus
the month keys of the parseable-dated transactions. -/
theorem mem_keys_groupFold (ts : List Transaction) :
    ∀ (g : List MonthBucket) (k : String),
    (k ∈ (ts.foldl addTxnToGroups g).map (·.key))
      ↔ k ∈ g.map (·.key) ∨ ∃ t ∈ ts, ∃ d, t.date = some d ∧ monthKeyOf d = k := by
  induction ts with
  | nil => intro g k; simp
  | cons t ts ih =>
    intro g k
    simp only [List.foldl_cons]
    cases ht : t.date with
    | none =>
      rw [show addTxnToGroups g t = g by rw [addTxnToGroups, ht], ih]
      constructor
      · rintro (hg | hex)
        · exact Or.inl hg
        · obtain ⟨u, hu, d, hd, hk⟩ := hex
          exact Or.inr ⟨u, List.mem_cons_of_mem t hu, d, hd, hk⟩
      · rintro (hg | ⟨u, hu, d, hd, hk⟩)
        · exact Or.inl hg
        · rcases List.mem_cons.mp hu with rfl | hmem
          · rw [ht] at hd; cases hd
          · exact Or.inr ⟨u, hmem, d, hd, hk⟩
    | some d =>
      rw [show addTxnToGroups g t = bumpBucket g (monthKeyOf d) (monthNameOf d) t.amount
          by rw [addTxnToGroups, ht], ih, mem_keys_bumpBucket]
      constructor
      · rintro ((hg | hk) | hex)
        · exact Or.inl hg
        · exact Or.inr ⟨t, List.mem_cons_self t ts, d, ht, hk.symm⟩
        · obtain ⟨u, hu, d', hd', hk'⟩ := hex
          exact Or.inr ⟨u, List.mem_cons_of_mem t hu, d', hd', hk'⟩
      · rintro (hg | ⟨u, hu, d', hd', hk'⟩)
        · exact Or.inl (Or.inl hg)
        · rcases List.mem_cons.mp hu with rfl | hmem
          · rw [ht] at hd'
            injection hd' with hdd
            subst hdd
            exact Or.inl (Or.inr hk'.symm)
          · exact Or.inr ⟨u, hmem, d', hd', hk'⟩

/-- The bucket fold keeps keys duplicate-free. -/
theorem nodup_keys_groupFold (ts : List Transaction) :
    ∀ g : List MonthBucket, (g.map (·.key)).Nodup →
    ((ts.foldl addTxnToGroups g).map (·.key)).Nodup := by
  induction ts with
  | nil => intro g h; simpa using h
  | cons t ts ih =>
    intro g h
    simp only [List.foldl_cons]
    cases ht : t.date with
    | none =>
      rw [show addTxnToGroups g t = g by rw [addTxnToGroups, ht]]
      exact ih g h
    | some d =>
      rw [show addTxnToGroups g t = bumpBucket g (monthKeyOf d) (monthNameOf d) t.amount
          by rw [addTxnToGroups, ht]]
      exact ih _ (nodup_keys_bumpBucket g _ _ _ h)

/-- The bucket fold over the transactions is the bucket fold over their parsed
triples. -/
theorem groupFold_eq_tripleFold (ts : List Transaction) :
    ∀ g : List MonthBucket,
    ts.foldl addTxnToGroups g
      = (parsedTriples ts).foldl (fun g p => bumpBucket g p.1 p.2.1 p.2.2) g := by
  induction ts with
  | nil => intro g; rfl
  | cons t ts ih =>
    intro g
    cases ht : t.date with
    | none =>
      simp only [List.foldl_cons, parsedTriples, List.filterMap_cons, ht, Option.map_none]
      rw [show addTxnToGroups g t = g by rw [addTxnToGroups, ht]]
      exact ih g
    | some d =>
      simp only [List.foldl_cons, parsedTriples, List.filterMap_cons, ht, Option.map_some,
        List.foldl_cons]
      rw [show addTxnToGroups g t = bumpBucket g (monthKeyOf d) (monthNameOf d) t.amount
          by rw [addTxnToGroups, ht]]
      exact ih _

/-- A skipped (undated) transaction adds no triple. -/
theorem parsedTriples_cons_none (t : Transaction) (ts : List Transaction)
    (ht : t.date = none) : parsedTriples (t :: ts) = parsedTriples ts := by
  simp [parsedTriples, List.filterMap_cons, ht]

/-- A dated transaction contributes its month key, label and amount. -/
theorem parsedTriples_cons_some (t : Transaction) (ts : List Transaction) (d : JDate)
    (ht : t.date = some d) :
    parsedTriples (t :: ts) = (monthKeyOf d, monthNameOf d, t.amount) :: parsedTriples ts := by
  simp [parsedTriples, List.filterMap_cons, ht]

/-- `keySum` on a cons. -/
theorem keySum_cons (k : String) (p : String × String × Rat)
    (l : List (String × String × Rat)) :
    keySum k (p :: l) = if p.1 = k then p.2.2 + keySum k l else keySum k l := by
  by_cases h : p.1 = k <;> simp [keySum, List.filter_cons, h]

/-- The key total of the parsed triples is the signed amount sum of the
transactions whose date parses into the key's month. -/
theorem keySum_parsedTriples (ts : List Transaction) (k : String) :
    keySum k (parsedTriples ts)
      = ((ts.filter (hasMonthKey k)).map (·.amount)).sum := by
  induction ts with
  | nil => simp [keySum, parsedTriples]
  | cons t ts ih =>
    rw [List.filter_cons]
    cases ht : t.date with
    | none =>
      rw [parsedTriples_cons_none t ts ht, ih]
      have hm : hasMonthKey k t = false := by simp [hasMonthKey, ht]
      rw [hm]
      simp
    | some d =>
      rw [parsedTriples_cons_some t ts d ht, keySum_cons]
      by_cases hk : monthKeyOf d = k
      · have hm : hasMonthKey k t = true := by simp [hasMonthKey, ht, hk]
        rw [hm, if_pos hk, ih]
        simp
      · have hm : hasMonthKey k t = false := by simp [hasMonthKey, ht, hk]
        rw [hm, if_neg hk, ih]
        simp

/-- With duplicate-free keys, `find?` by a member's key returns that member. -/
theorem find?_key_of_mem (g : List MonthBucket) (hnd : (g.map (·.key)).Nodup)
    (b : MonthBucket) (hb : b ∈ g) :
    g.find? (fun x => decide (x.key = b.key)) = some b := by
  induction g with
  | nil => cases hb
  | cons x g ih =>
    rw [List.map_cons, List.nodup_cons] at hnd
    rcases List.mem_cons.mp hb with rfl | hmem
    · exact List.find?_cons_of_pos _ (by simp)
    · have hx : ¬ x.key = b.key := fun h => hnd.1 (h ▸ List.mem_map.mpr ⟨b, hmem, rfl⟩)
      rw [List.find?_cons_of_neg _ (by simpa using hx)]
      exact ih hnd.2 hmem

/-- Skipping transactions with missing or unparseable dates is invisible to the
bucket fold. -/
theorem groupFold_filter_isSome (ts : List Transaction) :
    ∀ g : List MonthBucket,
    ts.foldl addTxnToGroups g
      = (ts.filter (fun t => t.date.isSome)).foldl addTxnToGroups g := by
  induction ts with
  | nil => intro g; rfl
  | cons t ts ih =>
    intro g
    cases ht : t.date with
    | none =>
      simp only [List.foldl_cons, List.filter_cons, ht, Option.isSome_none]
      rw [show addTxnToGroups g t = g by rw [addTxnToGroups, ht]]
      exact ih g
    | some d =>
      simp only [List.foldl_cons, List.filter_cons, ht, Option.isSome_some]
      rw [ih, if_pos trivial, List.foldl_cons]

/-- C7: `groupTransactionsByMonth` returns one bucket per distinct month key of
the parseable-dated transactions, each bucket's total being the signed sum of
its month's transaction amounts and its label coming from a transaction of that
month; transactions with missing or unparseable dates are skipped; and the
buckets are sorted ascending by month key. -/
theorem groupTransactionsByMonth_spec (ts : List Transaction) :
    ((groupTransactionsByMonth ts).map (·.key)).Nodup
    ∧ (∀ k : String, (k ∈ (groupTransactionsByMonth ts).map (·.key))
        ↔ ∃ t ∈ ts, ∃ d, t.date = some d ∧ monthKeyOf d = k)
    ∧ (∀ b ∈ groupTransactionsByMonth ts,
        b.total = ((ts.filter (hasMonthKey b.key)).map (·.amount)).sum
        ∧ ∃ t ∈ ts, ∃ d, t.date = some d ∧ monthKeyOf d = b.key
            ∧ monthNameOf d = b.name)
    ∧ List.Pairwise (fun a b => a.key ≤ b.key) (groupTransactionsByMonth ts)
    ∧ groupTransactionsByMonth ts
        = groupTransactionsByMonth (ts.filter (fun t => t.date.isSome)) := by
  have hperm : List.Perm (groupTransactionsByMonth ts) (ts.foldl addTxnToGroups []) :=
    List.perm_insertionSort bucketLE _
  have hnd : ((ts.foldl addTxnToGroups []).map (·.key)).Nodup :=
    nodup_keys_groupFold ts [] (by simp)
  refine ⟨?_, ?_, ?_, ?_, ?_⟩
  · exact ((hperm.map (·.key)).nodup_iff).mpr hnd
  · intro k
    rw [(hperm.map (·.key)).mem_iff, mem_keys_groupFold ts [] k]
    simp
  · intro b hb
    have hbG : b ∈ ts.foldl addTxnToGroups [] := hperm.subset hb
    have hfind := find?_key_of_mem _ hnd b hbG
    rw [groupFold_eq_tripleFold ts [], find?_tripleFold] at hfind
    rw [show ([] : List MonthBucket).find? (fun x => decide (x.key = b.key)) = none
        from rfl] at hfind
    cases hp : (parsedTriples ts).find? (fun p => decide (p.1 = b.key)) with
    | none => rw [hp] at hfind; cases hfind
    | some p =>
      rw [hp] at hfind
      have hpkey : p.1 = b.key := by
        have := List.find?_some hp
        simpa using this
      have hpmem : p ∈ parsedTriples ts := List.mem_of_find?_eq_some hp
      obtain ⟨t, ht, hmap⟩ := List.mem_filterMap.mp hpmem
      cases hd : t.date with
      | none => rw [hd] at hmap; cases hmap
      | some d =>
        rw [hd] at hmap
        injection hmap with hmap
        injection hfind with hfind
        constructor
        · rw [← hfind]
          rw [← keySum_parsedTriples]
        · refine ⟨t, ht, d, hd, ?_, ?_⟩
          · rw [← hmap] at hpkey
            exact hpkey
          · rw [← hfind, ← hmap]
  · exact List.sorted_insertionSort bucketLE _
  · rw [groupTransactionsByMonth, groupTransactionsByMonth, groupFold_filter_isSome ts []]

/-- C7 witness: on the example transaction list the single bucket is the
January 2025 bucket, whose total is the (only) signed amount and whose label
comes from the transaction's date. -/
theorem groupTransactionsByMonth_spec_witness :
    exampleBucket ∈ groupTransactionsByMonth exampleTxns
    ∧ (exampleBucket.total
          = ((exampleTxns.filter (hasMonthKey exampleBucket.key)).map (·.amount)).sum
       ∧ ∃ t ∈ exampleTxns, ∃ d, t.date = some d ∧ monthKeyOf d = exampleBucket.key
           ∧ monthNameOf d = exampleBucket.name) :=
  ⟨by decide, (groupTransactionsByMonth_spec exampleTxns).2.2.1 exampleBucket (by decide)⟩

end FinViz
